import Mathlib

/-!
# Verification of the claude-code-costs analysis scripts

Shallow embedding of the two analysis scripts (the basic one, which reads a
pre-computed `costUSD` field, and the enhanced one, which prices raw token
usage), together with proofs of the specification claims about them.

Conventions of the embedding:
* JS numbers that hold money are modelled as exact rationals `ℚ`
  (the spec states the cost formula as exact arithmetic);
* token counts are `ℕ`, absent JSON fields are `Option.none`;
* JS string truthiness (`if (s)`) is `s ≠ ""` on present strings;
* timestamps are integers (milliseconds since the epoch, as in a JS `Date`),
  and the UTC calendar date of a timestamp is its floor-division day number;
* a line of a JSONL file either parses to a `Record` or is `malformed`
  (the outcome of the `JSON.parse` call inside the `try`);
* JS division is partial: dividing by zero yields no finite number (`none`),
  standing for the `NaN`/`Infinity` the script would print.
-/

/-- One entry of the pricing table: the four per-million-token rates. -/
structure PricingEntry where
  input : ℚ
  output : ℚ
  cache_write : ℚ
  cache_read : ℚ
  deriving DecidableEq, Repr

/-- The `CLAUDE_PRICING` object literal, as an insertion-ordered
association list from model identifier to rates. -/
def CLAUDE_PRICING : List (String × PricingEntry) :=
  [ ("claude-opus-4-20250514",      ⟨15, 75, (75/4), (3/2)⟩),
    ("claude-sonnet-4-20250514",    ⟨3, 15, (15/4), (3/10)⟩),
    ("claude-3-7-sonnet-20250219",  ⟨3, 15, (15/4), (3/10)⟩),
    ("claude-3-7-sonnet-latest",    ⟨3, 15, (15/4), (3/10)⟩),
    ("claude-3-5-sonnet-20241022",  ⟨3, 15, (15/4), (3/10)⟩),
    ("claude-3-5-sonnet-20240620",  ⟨3, 15, (15/4), (3/10)⟩),
    ("claude-3-5-sonnet-latest",    ⟨3, 15, (15/4), (3/10)⟩),
    ("claude-3-5-haiku-20241022",   ⟨(4/5), 4, 1, (2/25)⟩),
    ("claude-3-5-haiku-latest",     ⟨(4/5), 4, 1, (2/25)⟩),
    ("claude-3-opus-20240229",      ⟨15, 75, (75/4), (3/2)⟩),
    ("claude-3-opus-latest",        ⟨15, 75, (75/4), (3/2)⟩),
    ("claude-3-sonnet-20240229",    ⟨3, 15, (15/4), (3/10)⟩),
    ("claude-3-haiku-20240307",     ⟨(1/4), (5/4), (3/10), (3/100)⟩),
    ("default",                     ⟨3, 15, (15/4), (3/10)⟩) ]

/-- The `default` entry of the pricing table (Sonnet 3.5 rates). -/
def defaultPricing : PricingEntry := ⟨3, 15, (15/4), (3/10)⟩

/-- The lookup `CLAUDE_PRICING[model] || CLAUDE_PRICING["default"]`: exact-key lookup
with silent fallback to the `default` entry. -/
def lookupPricing (model : String) : PricingEntry :=
  match CLAUDE_PRICING.lookup model with
  | some p => p
  | none => defaultPricing

/-- The `usage` object of an assistant message: four optional token counts
(`usage.input_tokens || 0` etc. reads an absent field as zero). -/
structure Usage where
  input_tokens : Option ℕ
  output_tokens : Option ℕ
  cache_creation_input_tokens : Option ℕ
  cache_read_input_tokens : Option ℕ
  deriving DecidableEq, Repr

/-- The body of `calculateCost` once the pricing entry is fixed:
four per-kind costs, each `(tokens || 0) * rate / 1000000`, summed. -/
def costWithPricing (usage : Usage) (pricing : PricingEntry) : ℚ :=
  let inputCost := ((usage.input_tokens.getD 0 : ℚ) * pricing.input) / 1000000
  let outputCost := ((usage.output_tokens.getD 0 : ℚ) * pricing.output) / 1000000
  let cacheWriteCost :=
    ((usage.cache_creation_input_tokens.getD 0 : ℚ) * pricing.cache_write) / 1000000
  let cacheReadCost :=
    ((usage.cache_read_input_tokens.getD 0 : ℚ) * pricing.cache_read) / 1000000
  inputCost + outputCost + cacheWriteCost + cacheReadCost

/-- The function `calculateCost(usage, model)`: `0` when `usage` is absent, otherwise the
four-kind sum under the looked-up pricing. -/
def calculateCost (usage : Option Usage) (model : String) : ℚ :=
  match usage with
  | none => 0
  | some u => costWithPricing u (lookupPricing model)

/-- The usage record with 1,000,000 input tokens and no other tokens. -/
def megaInputUsage : Usage := ⟨some 1000000, some 0, some 0, some 0⟩

theorem megaInput_sonnet_cost :
    calculateCost (some megaInputUsage) "claude-3-5-sonnet-20241022" = 3 := by
  have hs : lookupPricing "claude-3-5-sonnet-20241022" = ⟨3, 15, (15/4), (3/10)⟩ := rfl
  rw [calculateCost, hs]
  norm_num [costWithPricing, megaInputUsage]

/-- C1: for a usage record and a model present in the pricing table, the
per-turn cost is the sum over the four token kinds of
`tokens × price-per-million / 1,000,000`; in particular 1,000,000 input
tokens at the three-dollars-per-million Sonnet 3.5 input rate cost
exactly 3.00. -/
theorem calculateCost_formula (u : Usage) (model : String) (p : PricingEntry)
    (hp : CLAUDE_PRICING.lookup model = some p) :
    calculateCost (some u) model =
      ((u.input_tokens.getD 0 : ℚ) * p.input) / 1000000 +
      ((u.output_tokens.getD 0 : ℚ) * p.output) / 1000000 +
      ((u.cache_creation_input_tokens.getD 0 : ℚ) * p.cache_write) / 1000000 +
      ((u.cache_read_input_tokens.getD 0 : ℚ) * p.cache_read) / 1000000 ∧
    calculateCost (some megaInputUsage) "claude-3-5-sonnet-20241022" = 3 := by
  constructor
  · simp [calculateCost, lookupPricing, hp, costWithPricing]
  · exact megaInput_sonnet_cost

/-- Witness for C1: the Sonnet 3.5 entry is an exact key, and the formula
holds for the million-input-token usage record under it. -/
theorem calculateCost_formula_witness :
    calculateCost (some megaInputUsage) "claude-3-5-sonnet-20241022" =
      ((1000000 : ℚ) * 3) / 1000000 + ((0 : ℚ) * 15) / 1000000 +
      ((0 : ℚ) * (15/4)) / 1000000 + ((0 : ℚ) * (3/10)) / 1000000 ∧
    calculateCost (some megaInputUsage) "claude-3-5-sonnet-20241022" = 3 :=
  calculateCost_formula megaInputUsage "claude-3-5-sonnet-20241022"
    ⟨3, 15, (15/4), (3/10)⟩ rfl

/-- C2: a model identifier that is not an exact key of the pricing table is
priced by the `default` entry, so any usage record costs exactly what it
would cost under the `default` pricing. -/
theorem lookupPricing_default (model : String)
    (hm : CLAUDE_PRICING.lookup model = none) :
    lookupPricing model = defaultPricing ∧
    ∀ usage : Option Usage,
      calculateCost usage model =
        match usage with
        | none => 0
        | some u => costWithPricing u defaultPricing := by
  refine ⟨by simp [lookupPricing, hm], fun usage => ?_⟩
  cases usage with
  | none => rfl
  | some u => simp [calculateCost, lookupPricing, hm]

/-- Witness for C2: the empty string is not a key of the pricing table and
is priced by the `default` entry. -/
theorem lookupPricing_default_witness :
    lookupPricing "" = defaultPricing ∧
    ∀ usage : Option Usage,
      calculateCost usage "" =
        match usage with
        | none => 0
        | some u => costWithPricing u defaultPricing :=
  lookupPricing_default "" rfl

/-- JS truthiness of an optional string field: present and nonempty. -/
def jsTruthy : Option String → Bool
  | none => false
  | some s => s ≠ ""

/-- JS truthiness of an optional numeric field: present and nonzero. -/
def jsTruthyNum : Option ℚ → Bool
  | none => false
  | some q => q ≠ 0

/-- The chain `a || b || dflt` over two optional string fields and a literal. -/
def firstTruthy (a b : Option String) (dflt : String) : String :=
  if jsTruthy a then a.getD "" else if jsTruthy b then b.getD "" else dflt

/-- The `metadata` object of a summary record. -/
structure Metadata where
  workingDirectory : Option String
  cwd : Option String
  thread_summary : Option String
  summary : Option String
  deriving DecidableEq, Repr

/-- The nested `message` object of an assistant record. -/
structure MessageBody where
  usage : Option Usage
  model : Option String
  deriving DecidableEq, Repr

/-- One successfully parsed JSONL record, with the fields the scripts read.
Timestamps are already-parsed instants (milliseconds since the epoch). -/
structure Record where
  type : Option String
  timestamp : Option ℤ
  summary : Option String
  metadata : Option Metadata
  text : Option String
  costUSD : Option ℚ
  message : Option MessageBody
  deriving DecidableEq, Repr

/-- One line of a JSONL file: either it parses to a record or the
`JSON.parse` call throws and the `catch` swallows the error. -/
inductive Line where
  | malformed
  | ok (r : Record)
  deriving DecidableEq, Repr

/-- The loop-local accumulator of `parseJSONLFile`. -/
structure ParseState where
  totalCost : ℚ
  messageCount : ℕ
  conversationName : String
  conversationTitle : String
  startTime : Option ℤ
  endTime : Option ℤ
  summary : String
  firstUserMessage : String
  deriving DecidableEq, Repr

/-- The accumulator's initial values (`0, 0, '', '', null, null, '', ''`). -/
def initState : ParseState := ⟨0, 0, "", "", none, none, "", ""⟩

/-- The `type === 'summary'` block: store a truthy free-text summary, and
from metadata take the working directory as name and let `thread_summary`
then `metadata.summary` overwrite the title candidate. -/
def applySummary (st : ParseState) (r : Record) : ParseState :=
  if r.type = some "summary" then
    let st1 := if jsTruthy r.summary then { st with summary := r.summary.getD "" } else st
    match r.metadata with
    | some m =>
      let st2 := { st1 with
        conversationName := firstTruthy m.workingDirectory m.cwd "Unknown" }
      let st3 :=
        if jsTruthy m.thread_summary then
          { st2 with conversationTitle := m.thread_summary.getD "" }
        else st2
      if jsTruthy m.summary then { st3 with conversationTitle := m.summary.getD "" }
      else st3
    | none => st1
  else st

/-- The `type === 'user'` block: capture the first truthy user text, once,
truncated to 100 characters. -/
def applyUser (st : ParseState) (r : Record) : ParseState :=
  if r.type = some "user" ∧ st.firstUserMessage = "" ∧ jsTruthy r.text then
    { st with firstUserMessage := (r.text.getD "").take 100 }
  else st

/-- The enhanced script's `type === 'assistant'` block: when the nested
message carries a usage object and a truthy model, add
`calculateCost(usage, model)` and count the turn. -/
def applyAssistantEnhanced (st : ParseState) (r : Record) : ParseState :=
  match r.message with
  | some body =>
    if r.type = some "assistant" ∧ body.usage.isSome ∧ jsTruthy body.model then
      { st with
        totalCost := st.totalCost + calculateCost body.usage (body.model.getD "")
        messageCount := st.messageCount + 1 }
    else st
  | none => st

/-- The basic script's `type === 'assistant'` block: when the record carries
a truthy `costUSD`, add it as-is and count the turn. -/
def applyAssistantBasic (st : ParseState) (r : Record) : ParseState :=
  if r.type = some "assistant" ∧ jsTruthyNum r.costUSD then
    { st with
      totalCost := st.totalCost + r.costUSD.getD 0
      messageCount := st.messageCount + 1 }
  else st

/-- The timestamp block: a record with a timestamp lowers `startTime` and
raises `endTime` (strict comparisons; the first timestamp sets both). -/
def applyTimestamp (st : ParseState) (r : Record) : ParseState :=
  match r.timestamp with
  | some t =>
    let st1 :=
      match st.startTime with
      | none => { st with startTime := some t }
      | some s => if t < s then { st with startTime := some t } else st
    match st1.endTime with
    | none => { st1 with endTime := some t }
    | some e => if e < t then { st1 with endTime := some t } else st1
  | none => st

/-- One parsed record of the enhanced script's loop body, blocks in source
order: summary, user, assistant (usage-priced), timestamp. -/
def processRecordEnhanced (st : ParseState) (r : Record) : ParseState :=
  applyTimestamp (applyAssistantEnhanced (applyUser (applySummary st r) r) r) r

/-- One parsed record of the basic script's loop body, blocks in source
order: summary, user, assistant (`costUSD`), timestamp. -/
def processRecordBasic (st : ParseState) (r : Record) : ParseState :=
  applyTimestamp (applyAssistantBasic (applyUser (applySummary st r) r) r) r

/-- One line of the enhanced loop: a malformed line is skipped silently. -/
def processLineEnhanced (st : ParseState) (l : Line) : ParseState :=
  match l with
  | .malformed => st
  | .ok r => processRecordEnhanced st r

/-- One line of the basic loop: a malformed line is skipped silently. -/
def processLineBasic (st : ParseState) (l : Line) : ParseState :=
  match l with
  | .malformed => st
  | .ok r => processRecordBasic st r

/-- The normalization `.replace(/\n/g, " ").substring(0, 100)` of the chosen title. -/
def normalizeTitle (s : String) : String :=
  (s.map (fun c => if c = '\n' then ' ' else c)).take 100

/-- End-of-pass title resolution: keep a truthy title candidate, else the
free-text summary, else the first user message, else the literal fallback;
then normalize. -/
def resolveTitle (st : ParseState) : String :=
  let t :=
    if st.conversationTitle = "" then
      if st.summary ≠ "" then st.summary
      else if st.firstUserMessage ≠ "" then st.firstUserMessage
      else "Untitled conversation"
    else st.conversationTitle
  normalizeTitle t

/-- One Session Summary (`parseJSONLFile`'s return object, plus the
`projectName` the scanner attaches afterwards). -/
structure Conversation where
  conversationId : String
  conversationName : String
  conversationTitle : String
  totalCost : ℚ
  messageCount : ℕ
  startTime : Option ℤ
  endTime : Option ℤ
  duration : ℚ
  projectName : String
  deriving DecidableEq, Repr

/-- The enhanced `parseJSONLFile`: fold the loop body over the lines, then
resolve the title and assemble the summary record. -/
def parseJSONLFileEnhanced (conversationId : String) (lines : List Line) :
    Conversation :=
  let st := lines.foldl processLineEnhanced initState
  { conversationId := conversationId
    conversationName := st.conversationName
    conversationTitle := resolveTitle st
    totalCost := st.totalCost
    messageCount := st.messageCount
    startTime := st.startTime
    endTime := st.endTime
    duration :=
      match st.endTime, st.startTime with
      | some e, some s => ((e - s : ℤ) : ℚ) / 1000 / 60
      | _, _ => 0
    projectName := "" }

/-- The basic `parseJSONLFile`: same shape, `costUSD`-based loop body. -/
def parseJSONLFileBasic (conversationId : String) (lines : List Line) :
    Conversation :=
  let st := lines.foldl processLineBasic initState
  { conversationId := conversationId
    conversationName := st.conversationName
    conversationTitle := resolveTitle st
    totalCost := st.totalCost
    messageCount := st.messageCount
    startTime := st.startTime
    endTime := st.endTime
    duration :=
      match st.endTime, st.startTime with
      | some e, some s => ((e - s : ℤ) : ℚ) / 1000 / 60
      | _, _ => 0
    projectName := "" }

/-- The enhanced scanner's retention step: only conversations with at least
one counted turn are appended to the corpus. -/
def scanFilter (convs : List Conversation) : List Conversation :=
  convs.filter (fun c => decide (0 < c.messageCount))

/-- The UTC calendar day number of an instant
(`toISOString().split('T')[0]`, with ISO dates identified with day
numbers since the epoch, floor division). -/
def dateOf (t : ℤ) : ℤ := t.fdiv 86400000

/-- One daily bucket of `aggregateDailyCosts`. -/
structure DailyBucket where
  date : ℤ
  totalCost : ℚ
  conversationCount : ℕ
  conversations : List Conversation
  deriving DecidableEq, Repr

/-- Add one conversation under its date key, preserving first-seen key
order (JS object property insertion order). -/
def addToBuckets (bs : List DailyBucket) (d : ℤ) (c : Conversation) :
    List DailyBucket :=
  match bs with
  | [] => [⟨d, c.totalCost, 1, [c]⟩]
  | b :: rest =>
    if b.date = d then
      { b with
        totalCost := b.totalCost + c.totalCost
        conversationCount := b.conversationCount + 1
        conversations := b.conversations ++ [c] } :: rest
    else b :: addToBuckets rest d c

/-- The `forEach` body of `aggregateDailyCosts`: only a conversation with
positive cost and a start time is bucketed. -/
def dailyStep (bs : List DailyBucket) (c : Conversation) : List DailyBucket :=
  if 0 < c.totalCost then
    match c.startTime with
    | some t => addToBuckets bs (dateOf t) c
    | none => bs
  else bs

/-- The function `aggregateDailyCosts`: bucket the cost-bearing conversations by UTC
date, then sort the buckets ascending by date. -/
def aggregateDailyCosts (convs : List Conversation) : List DailyBucket :=
  (convs.foldl dailyStep []).mergeSort (fun a b => decide (a.date ≤ b.date))

/-- The function `getLast30Days`: the day numbers of today and the 29 preceding days,
oldest first ("today" is a parameter of the embedding). -/
def getLast30Days (today : ℤ) : List ℤ :=
  (List.range 30).map (fun (i : ℕ) => today - 29 + (i : ℤ))

/-- One entry of the report's 30-day series. -/
structure DayEntry where
  date : ℤ
  cost : ℚ
  conversations : List Conversation
  deriving DecidableEq, Repr

/-- The daily series of `createHTMLReport`: each of the last 30 days takes its
aggregated bucket's cost and sessions, or a zero-cost empty entry. -/
def last30DaysData (today : ℤ) (convs : List Conversation) : List DayEntry :=
  let dailyData := aggregateDailyCosts convs
  (getLast30Days today).map (fun d =>
    match dailyData.find? (fun b => decide (b.date = d)) with
    | some b => ⟨d, b.totalCost, b.conversations⟩
    | none => ⟨d, 0, []⟩)

/-- The ranking: conversations filtered to positive cost, sorted descending
by cost with JS's stable `Array.prototype.sort`. -/
def conversationsWithCosts (convs : List Conversation) : List Conversation :=
  (convs.filter (fun c => decide (0 < c.totalCost))).mergeSort
    (fun a b => decide (b.totalCost ≤ a.totalCost))

/-- JS division, partially: division by zero yields no finite value
(the `NaN`/`Infinity` the script would print). -/
def jsDiv (a b : ℚ) : Option ℚ :=
  if b = 0 then none else some (a / b)

/-- The total `reduce((sum, c) => sum + c.totalCost, 0)`. -/
def totalCostOf (convs : List Conversation) : ℚ :=
  convs.foldl (fun sum c => sum + c.totalCost) 0

/-- The average line of `displaySummary`:
`totalCost / conversationsWithCosts.length`, unguarded. -/
def averageCostPerConversation (convs : List Conversation) : Option ℚ :=
  let withCosts := convs.filter (fun c => decide (0 < c.totalCost))
  jsDiv (totalCostOf withCosts) withCosts.length

/-- The only guard of `main` before `displaySummary`:
`if (conversations.length === 0) return`. -/
def mainRunsDisplaySummary (convs : List Conversation) : Bool :=
  !convs.isEmpty

/-- A record that triggers the enhanced cost branch: an assistant record
with a nested message carrying a usage object and a truthy model. -/
def isCostBearingRecord (r : Record) : Bool :=
  match r.message with
  | some body =>
    decide (r.type = some "assistant") && body.usage.isSome && jsTruthy body.model
  | none => false

/-- A line that parses and triggers the enhanced cost branch. -/
def isCostBearingLine : Line → Bool
  | .malformed => false
  | .ok r => isCostBearingRecord r

/-- The turn cost the enhanced cost branch would add for a record. -/
def recordCostEnhanced (r : Record) : ℚ :=
  match r.message with
  | some body => calculateCost body.usage (body.model.getD "")
  | none => 0

theorem applySummary_frame (st : ParseState) (r : Record) :
    (applySummary st r).totalCost = st.totalCost ∧
    (applySummary st r).messageCount = st.messageCount ∧
    (applySummary st r).startTime = st.startTime ∧
    (applySummary st r).endTime = st.endTime ∧
    (applySummary st r).firstUserMessage = st.firstUserMessage := by
  unfold applySummary
  refine ⟨?_, ?_, ?_, ?_, ?_⟩ <;> (repeat' split) <;> first | rfl | simp_all

theorem applyUser_frame (st : ParseState) (r : Record) :
    (applyUser st r).totalCost = st.totalCost ∧
    (applyUser st r).messageCount = st.messageCount ∧
    (applyUser st r).startTime = st.startTime ∧
    (applyUser st r).endTime = st.endTime ∧
    (applyUser st r).conversationTitle = st.conversationTitle ∧
    (applyUser st r).summary = st.summary ∧
    (applyUser st r).conversationName = st.conversationName := by
  unfold applyUser
  refine ⟨?_, ?_, ?_, ?_, ?_, ?_, ?_⟩ <;> (repeat' split) <;> first | rfl | simp_all

theorem applyAssistantEnhanced_frame (st : ParseState) (r : Record) :
    (applyAssistantEnhanced st r).startTime = st.startTime ∧
    (applyAssistantEnhanced st r).endTime = st.endTime ∧
    (applyAssistantEnhanced st r).firstUserMessage = st.firstUserMessage ∧
    (applyAssistantEnhanced st r).conversationTitle = st.conversationTitle ∧
    (applyAssistantEnhanced st r).summary = st.summary ∧
    (applyAssistantEnhanced st r).conversationName = st.conversationName := by
  unfold applyAssistantEnhanced
  refine ⟨?_, ?_, ?_, ?_, ?_, ?_⟩ <;> (repeat' split) <;> first | rfl | simp_all

theorem applyAssistantBasic_frame (st : ParseState) (r : Record) :
    (applyAssistantBasic st r).startTime = st.startTime ∧
    (applyAssistantBasic st r).endTime = st.endTime ∧
    (applyAssistantBasic st r).firstUserMessage = st.firstUserMessage ∧
    (applyAssistantBasic st r).conversationTitle = st.conversationTitle ∧
    (applyAssistantBasic st r).summary = st.summary ∧
    (applyAssistantBasic st r).conversationName = st.conversationName := by
  unfold applyAssistantBasic
  refine ⟨?_, ?_, ?_, ?_, ?_, ?_⟩ <;> (repeat' split) <;> first | rfl | simp_all

theorem applyTimestamp_frame (st : ParseState) (r : Record) :
    (applyTimestamp st r).totalCost = st.totalCost ∧
    (applyTimestamp st r).messageCount = st.messageCount ∧
    (applyTimestamp st r).firstUserMessage = st.firstUserMessage ∧
    (applyTimestamp st r).conversationTitle = st.conversationTitle ∧
    (applyTimestamp st r).summary = st.summary ∧
    (applyTimestamp st r).conversationName = st.conversationName := by
  unfold applyTimestamp
  rcases ht : r.timestamp with _ | t
  · exact ⟨rfl, rfl, rfl, rfl, rfl, rfl⟩
  · rcases hs : st.startTime with _ | s <;> rcases he : st.endTime with _ | e <;>
      simp only [ht, hs, he] <;> (repeat' split) <;>
      first
      | exact ⟨rfl, rfl, rfl, rfl, rfl, rfl⟩
      | (repeat' constructor)
      | simp_all

theorem applyAssistantEnhanced_count (st : ParseState) (r : Record) :
    (applyAssistantEnhanced st r).messageCount =
      st.messageCount + (if isCostBearingRecord r then 1 else 0) ∧
    (applyAssistantEnhanced st r).totalCost =
      st.totalCost + (if isCostBearingRecord r then recordCostEnhanced r else 0) := by
  unfold applyAssistantEnhanced isCostBearingRecord recordCostEnhanced
  refine ⟨?_, ?_⟩ <;> (repeat' split) <;> simp_all

theorem processRecordEnhanced_count (st : ParseState) (r : Record) :
    (processRecordEnhanced st r).messageCount =
      st.messageCount + (if isCostBearingRecord r then 1 else 0) ∧
    (processRecordEnhanced st r).totalCost =
      st.totalCost + (if isCostBearingRecord r then recordCostEnhanced r else 0) := by
  unfold processRecordEnhanced
  have hts := applyTimestamp_frame
    (applyAssistantEnhanced (applyUser (applySummary st r) r) r) r
  have hae := applyAssistantEnhanced_count (applyUser (applySummary st r) r) r
  have hau := applyUser_frame (applySummary st r) r
  have has := applySummary_frame st r
  constructor
  · rw [hts.2.1, hae.1, hau.2.1, has.2.1]
  · rw [hts.1, hae.2, hau.1, has.1]

theorem foldl_enhanced_count (lines : List Line) (st : ParseState) :
    (lines.foldl processLineEnhanced st).messageCount =
      st.messageCount + lines.countP isCostBearingLine := by
  induction lines generalizing st with
  | nil => simp
  | cons l ls ih =>
    rw [List.foldl_cons, ih, List.countP_cons]
    cases l with
    | malformed => simp [processLineEnhanced, isCostBearingLine]
    | ok r =>
      simp only [processLineEnhanced, isCostBearingLine]
      rw [(processRecordEnhanced_count st r).1]
      omega

/-- C7: malformed lines never abort the parse — for any file with `N`
cost-bearing assistant lines and `M` unparseable lines, the parser skips
the `M` bad lines and reports exactly `N` turns. -/
theorem parse_turnCount (conversationId : String) (lines : List Line) (N M : ℕ)
    (hN : lines.countP isCostBearingLine = N)
    (hM : lines.countP (fun l => decide (l = Line.malformed)) = M) :
    (parseJSONLFileEnhanced conversationId lines).messageCount = N := by
  have h := foldl_enhanced_count lines initState
  have h0 : initState.messageCount = 0 := rfl
  show (lines.foldl processLineEnhanced initState).messageCount = N
  omega

/-- A four-line file: two cost-bearing assistant lines, two malformed. -/
def mixedFile : List Line :=
  [ Line.malformed,
    Line.ok ⟨some "assistant", some 0, none, none, none, none,
      some ⟨some megaInputUsage, some "claude-3-5-sonnet-20241022"⟩⟩,
    Line.malformed,
    Line.ok ⟨some "assistant", some 60000, none, none, none, none,
      some ⟨some megaInputUsage, some "claude-3-5-sonnet-20241022"⟩⟩ ]

/-- Witness for C7: a file with 2 valid assistant lines and 2 malformed
lines parses to exactly 2 turns. -/
theorem parse_turnCount_witness :
    (parseJSONLFileEnhanced "w" mixedFile).messageCount = 2 :=
  parse_turnCount "w" mixedFile 2 2 (by decide) (by decide)

/-- The cost contribution of one line in the enhanced loop. -/
def lineCostEnhanced : Line → ℚ
  | .malformed => 0
  | .ok r => recordCostEnhanced r

theorem foldl_enhanced_cost (lines : List Line) (st : ParseState) :
    (lines.foldl processLineEnhanced st).totalCost =
      st.totalCost +
        (lines.map fun l =>
          if isCostBearingLine l then lineCostEnhanced l else 0).sum := by
  induction lines generalizing st with
  | nil => simp
  | cons l ls ih =>
    rw [List.foldl_cons, ih, List.map_cons, List.sum_cons]
    cases l with
    | malformed => simp [processLineEnhanced, isCostBearingLine, lineCostEnhanced]
    | ok r =>
      simp only [processLineEnhanced, isCostBearingLine, lineCostEnhanced]
      rw [(processRecordEnhanced_count st r).2]
      ring

theorem parse_zero_turns_zero_cost (conversationId : String) (lines : List Line)
    (h : (parseJSONLFileEnhanced conversationId lines).messageCount = 0) :
    (parseJSONLFileEnhanced conversationId lines).totalCost = 0 := by
  have hc := foldl_enhanced_count lines initState
  have hs := foldl_enhanced_cost lines initState
  have hcount : (lines.foldl processLineEnhanced initState).messageCount = 0 := h
  have h0 : initState.messageCount = 0 := rfl
  have hnone : lines.countP isCostBearingLine = 0 := by omega
  have hall : ∀ l ∈ lines, ¬ (isCostBearingLine l = true) := by
    intro l hl
    exact (List.countP_eq_zero.mp hnone) l hl
  show (lines.foldl processLineEnhanced initState).totalCost = 0
  rw [hs]
  have : (lines.map fun l =>
      if isCostBearingLine l then lineCostEnhanced l else 0).sum = 0 := by
    apply List.sum_eq_zero
    intro x hx
    obtain ⟨l, hl, hlx⟩ := List.mem_map.mp hx
    simp [hall l hl] at hlx
    exact hlx.symm
  rw [this]
  show initState.totalCost + 0 = 0
  norm_num [initState]

theorem addToBuckets_inv (P : Conversation → Prop) (bs : List DailyBucket)
    (d : ℤ) (c : Conversation)
    (h : ∀ b ∈ bs, ∀ x ∈ b.conversations, P x) (hc : P c) :
    ∀ b ∈ addToBuckets bs d c, ∀ x ∈ b.conversations, P x := by
  induction bs with
  | nil =>
    intro b hb x hx
    simp [addToBuckets] at hb
    subst hb
    simp at hx
    subst hx
    exact hc
  | cons b0 rest ih =>
    intro b hb x hx
    simp only [addToBuckets] at hb
    split at hb
    · rcases List.mem_cons.mp hb with h1 | h1
      · subst h1
        simp only [List.mem_append, List.mem_singleton] at hx
        rcases hx with hx | hx
        · exact h b0 (List.mem_cons_self _ _) x hx
        · subst hx; exact hc
      · exact h b (List.mem_cons_of_mem _ h1) x hx
    · rcases List.mem_cons.mp hb with h1 | h1
      · subst h1
        exact h b (List.mem_cons_self _ _) x hx
      · exact ih (fun b' hb' => h b' (List.mem_cons_of_mem _ hb')) b h1 x hx

theorem dailyStep_inv (bs : List DailyBucket) (c : Conversation)
    (h : ∀ b ∈ bs, ∀ x ∈ b.conversations,
      0 < x.totalCost ∧ x.startTime.isSome) :
    ∀ b ∈ dailyStep bs c, ∀ x ∈ b.conversations,
      0 < x.totalCost ∧ x.startTime.isSome := by
  unfold dailyStep
  split
  · rename_i hpos
    cases hst : c.startTime with
    | none => simpa [hst] using h
    | some t =>
      simp only [hst]
      exact addToBuckets_inv _ bs (dateOf t) c h ⟨hpos, by simp [hst]⟩
  · exact h

theorem dailyFold_inv (convs : List Conversation) (bs : List DailyBucket)
    (h : ∀ b ∈ bs, ∀ x ∈ b.conversations,
      0 < x.totalCost ∧ x.startTime.isSome) :
    ∀ b ∈ convs.foldl dailyStep bs, ∀ x ∈ b.conversations,
      0 < x.totalCost ∧ x.startTime.isSome := by
  induction convs generalizing bs with
  | nil => simpa using h
  | cons c cs ih =>
    rw [List.foldl_cons]
    exact ih _ (dailyStep_inv bs c h)

theorem mem_aggregate_pos (convs : List Conversation) (b : DailyBucket)
    (hb : b ∈ aggregateDailyCosts convs) :
    ∀ x ∈ b.conversations, 0 < x.totalCost ∧ x.startTime.isSome := by
  have hb' : b ∈ convs.foldl dailyStep [] := by
    unfold aggregateDailyCosts at hb
    exact List.mem_mergeSort.mp hb
  exact dailyFold_inv convs [] (by simp) b hb'

/-- C8: a parser-produced summary with zero turns has zero cost; a summary
with non-positive cost is never in the ranking; and a summary with
non-positive cost or no earliest timestamp is in no daily bucket. -/
theorem zeroTurn_excluded :
    (∀ (conversationId : String) (lines : List Line),
      (parseJSONLFileEnhanced conversationId lines).messageCount = 0 →
      (parseJSONLFileEnhanced conversationId lines).totalCost = 0) ∧
    (∀ (convs : List Conversation) (c : Conversation), c.totalCost ≤ 0 →
      c ∉ conversationsWithCosts convs) ∧
    (∀ (convs : List Conversation) (c : Conversation),
      c.totalCost ≤ 0 ∨ c.startTime = none →
      ∀ b ∈ aggregateDailyCosts convs, c ∉ b.conversations) := by
  refine ⟨parse_zero_turns_zero_cost, ?_, ?_⟩
  · intro convs c hc hmem
    have : c ∈ convs.filter (fun c => decide (0 < c.totalCost)) := by
      unfold conversationsWithCosts at hmem
      exact List.mem_mergeSort.mp hmem
    have hpos : 0 < c.totalCost := by
      have := (List.mem_filter.mp this).2
      simpa using this
    linarith
  · intro convs c hc b hb hmem
    have h := mem_aggregate_pos convs b hb c hmem
    rcases hc with hc | hc
    · linarith [h.1]
    · rw [hc] at h
      simp at h

/-- A zero-cost, zero-turn, timestampless Session Summary. -/
def zeroConv : Conversation := ⟨"id0", "", "t", 0, 0, none, none, 0, "p"⟩

/-- Witness for C8: a file of one malformed line parses to zero turns and
zero cost, and a zero-cost summary is in neither the ranking nor any
bucket of its collection. -/
theorem zeroTurn_excluded_witness :
    (parseJSONLFileEnhanced "w0" [Line.malformed]).totalCost = 0 ∧
    zeroConv ∉ conversationsWithCosts [zeroConv] ∧
    ∀ b ∈ aggregateDailyCosts [zeroConv], zeroConv ∉ b.conversations :=
  ⟨zeroTurn_excluded.1 "w0" [Line.malformed] (by decide),
   zeroTurn_excluded.2.1 [zeroConv] zeroConv (by decide),
   zeroTurn_excluded.2.2 [zeroConv] zeroConv (Or.inr rfl)⟩

/-- The aggregation test of `aggregateDailyCosts`, as a predicate. -/
def passDaily (c : Conversation) : Bool :=
  decide (0 < c.totalCost) && c.startTime.isSome

theorem dailyStep_skip (bs : List DailyBucket) (c : Conversation)
    (h : passDaily c = false) : dailyStep bs c = bs := by
  unfold dailyStep
  unfold passDaily at h
  split
  · rename_i hpos
    cases hst : c.startTime with
    | none => simp [hst]
    | some t => simp [hpos, hst] at h
  · rfl

theorem foldl_dailyStep_filter (convs : List Conversation)
    (bs : List DailyBucket) :
    convs.foldl dailyStep bs = (convs.filter passDaily).foldl dailyStep bs := by
  induction convs generalizing bs with
  | nil => rfl
  | cons c cs ih =>
    rw [List.foldl_cons, List.filter_cons]
    cases hp : passDaily c with
    | true => rw [if_pos (by simp), List.foldl_cons, ih]
    | false => rw [if_neg (by simp), dailyStep_skip bs c hp, ih]

/-- C10: when every zero-turn summary has zero cost, filtering zero-turn
summaries out at scan time changes neither the daily aggregation nor the
ranking. -/
theorem scanner_policies_equivalent (convs : List Conversation)
    (h : ∀ c ∈ convs, c.messageCount = 0 → c.totalCost = 0) :
    aggregateDailyCosts (scanFilter convs) = aggregateDailyCosts convs ∧
    conversationsWithCosts (scanFilter convs) = conversationsWithCosts convs := by
  have hkeep : ∀ c ∈ convs, 0 < c.totalCost → (0 < c.messageCount) := by
    intro c hc hpos
    by_contra hz
    have : c.messageCount = 0 := by omega
    have := h c hc this
    rw [this] at hpos
    exact lt_irrefl 0 hpos
  constructor
  · unfold aggregateDailyCosts
    congr 1
    rw [foldl_dailyStep_filter, foldl_dailyStep_filter convs]
    congr 1
    unfold scanFilter
    rw [List.filter_filter]
    apply List.filter_congr
    intro c hc
    cases hp : passDaily c with
    | true =>
      have hpos : 0 < c.totalCost := by
        unfold passDaily at hp
        simp at hp
        exact hp.1
      simp [hkeep c hc hpos]
    | false => simp
  · unfold conversationsWithCosts
    congr 1
    unfold scanFilter
    rw [List.filter_filter]
    apply List.filter_congr
    intro c hc
    cases hp : decide (0 < c.totalCost) with
    | true =>
      have hpos : 0 < c.totalCost := by simpa using hp
      simp [hkeep c hc hpos]
    | false => simp

/-- A cost-bearing one-turn summary dated on day 0. -/
def costConv : Conversation :=
  ⟨"id1", "", "t1", 3, 1, some 0, some 0, 0, "p"⟩

/-- Witness for C10: on a two-summary collection whose zero-turn summary
has zero cost, both retention policies aggregate identically. -/
theorem scanner_policies_equivalent_witness :
    aggregateDailyCosts (scanFilter [costConv, zeroConv]) =
      aggregateDailyCosts [costConv, zeroConv] ∧
    conversationsWithCosts (scanFilter [costConv, zeroConv]) =
      conversationsWithCosts [costConv, zeroConv] :=
  scanner_policies_equivalent [costConv, zeroConv] (by decide)

theorem last30DaysData_date (today : ℤ) (convs : List Conversation) :
    (last30DaysData today convs).map DayEntry.date = getLast30Days today := by
  unfold last30DaysData
  rw [List.map_map]
  conv_rhs => rw [show getLast30Days today = (getLast30Days today).map id from (List.map_id _).symm]
  apply List.map_congr_left
  intro d _
  simp only [Function.comp_apply, id_eq]
  cases hf : (aggregateDailyCosts convs).find? (fun b => decide (b.date = d)) with
  | none => rfl
  | some b => rfl

/-- C3: the report's daily series has exactly 30 entries; their dates are
precisely today and the 29 preceding days, in strictly ascending order;
and every date with no aggregated bucket gets a zero-cost, empty entry. -/
theorem last30Days_series (today : ℤ) (convs : List Conversation) :
    (last30DaysData today convs).length = 30 ∧
    ((last30DaysData today convs).map DayEntry.date = getLast30Days today ∧
      ∀ d : ℤ, d ∈ getLast30Days today ↔ today - 29 ≤ d ∧ d ≤ today) ∧
    ((last30DaysData today convs).map DayEntry.date).Pairwise (· < ·) ∧
    (∀ e ∈ last30DaysData today convs,
      (∀ b ∈ aggregateDailyCosts convs, b.date ≠ e.date) →
      e.cost = 0 ∧ e.conversations = []) := by
  refine ⟨?_, ⟨last30DaysData_date today convs, ?_⟩, ?_, ?_⟩
  · show ((getLast30Days today).map _).length = 30
    rw [List.length_map]
    unfold getLast30Days
    rw [List.length_map, List.length_range]
  · intro d
    unfold getLast30Days
    constructor
    · intro hd
      obtain ⟨i, hi, hdi⟩ := List.mem_map.mp hd
      have hi30 : i < 30 := List.mem_range.mp hi
      omega
    · rintro ⟨h1, h2⟩
      exact List.mem_map.mpr ⟨(d - (today - 29)).toNat,
        List.mem_range.mpr (by omega), by omega⟩
  · rw [last30DaysData_date]
    unfold getLast30Days
    refine List.Pairwise.map _ ?_ (List.pairwise_lt_range 30)
    intro a b hab
    omega
  · intro e he hnone
    unfold last30DaysData at he
    obtain ⟨d, _, hde⟩ := List.mem_map.mp he
    cases hf : (aggregateDailyCosts convs).find? (fun b => decide (b.date = d)) with
    | none =>
      rw [hf] at hde
      rw [← hde]
      exact ⟨rfl, rfl⟩
    | some b =>
      exfalso
      have hbmem : b ∈ aggregateDailyCosts convs := List.mem_of_find?_eq_some hf
      have hbd : b.date = d := by
        have := List.find?_some hf
        simpa using this
      rw [hf] at hde
      have : e.date = d := by rw [← hde]
      exact hnone b hbmem (by rw [hbd, this])

/-- Witness for C3: the series of an empty corpus on day 0 has 30 entries. -/
theorem last30Days_series_witness :
    (last30DaysData 0 []).length = 30 :=
  (last30Days_series 0 []).1

theorem mergeSort_filter_stable {α : Type _} (le : α → α → Bool)
    (htrans : ∀ a b c, le a b → le b c → le a c)
    (htotal : ∀ a b, le a b || le b a)
    (l : List α) (p : α → Bool)
    (hp : ∀ a b, p a → p b → le a b) :
    (l.mergeSort le).filter p = l.filter p := by
  classical
  have hall : ∀ a ∈ l.filter p, p a = true := fun a ha => (List.mem_filter.mp ha).2
  have hc : (l.filter p).Pairwise (fun a b => le a b) := by
    apply List.pairwise_of_forall_mem_list
    intro a ha b hb
    exact hp a b (hall a ha) (hall b hb)
  have h1 : List.Sublist (l.filter p) (l.mergeSort le) :=
    List.sublist_mergeSort htrans htotal hc (List.filter_sublist l)
  have h2 : List.Sublist ((l.filter p).filter p) ((l.mergeSort le).filter p) :=
    List.Sublist.filter p h1
  rw [List.filter_eq_self.mpr hall] at h2
  have hperm : List.Perm ((l.mergeSort le).filter p) (l.filter p) :=
    (List.mergeSort_perm l le).filter p
  exact (h2.eq_of_length hperm.length_eq.symm).symm

/-- C4: the ranking is the positive-cost sub-collection, sorted descending
by cost, stably: it is a permutation of the filtered collection, pairwise
nonincreasing, and for each cost value the equal-cost entries appear in
their original relative order. -/
theorem ranking_stable (convs : List Conversation) :
    List.Perm (conversationsWithCosts convs)
      (convs.filter (fun c => decide (0 < c.totalCost))) ∧
    (conversationsWithCosts convs).Pairwise
      (fun a b => b.totalCost ≤ a.totalCost) ∧
    ∀ q : ℚ,
      (conversationsWithCosts convs).filter (fun c => decide (c.totalCost = q)) =
        (convs.filter (fun c => decide (0 < c.totalCost))).filter
          (fun c => decide (c.totalCost = q)) := by
  have htrans : ∀ a b c : Conversation,
      decide (b.totalCost ≤ a.totalCost) → decide (c.totalCost ≤ b.totalCost) →
      decide (c.totalCost ≤ a.totalCost) := by
    intro a b c h1 h2
    simp only [decide_eq_true_eq] at *
    linarith
  have htotal : ∀ a b : Conversation,
      decide (b.totalCost ≤ a.totalCost) || decide (a.totalCost ≤ b.totalCost) := by
    intro a b
    rcases le_total b.totalCost a.totalCost with h | h <;> simp [h]
  refine ⟨List.mergeSort_perm _ _, ?_, ?_⟩
  · have := List.sorted_mergeSort htrans htotal
      (convs.filter (fun c => decide (0 < c.totalCost)))
    exact this.imp (by intro a b h; simpa using h)
  · intro q
    exact mergeSort_filter_stable _ htrans htotal _ _
      (by intro a b ha hb
          simp only [decide_eq_true_eq] at *
          rw [ha, hb])

/-- Witness for C4: the ranking properties evaluated on a two-element
collection with equal costs. -/
theorem ranking_stable_witness :
    List.Perm (conversationsWithCosts [costConv, zeroConv])
      ([costConv, zeroConv].filter (fun c => decide (0 < c.totalCost))) :=
  (ranking_stable [costConv, zeroConv]).1

/-- C5: the average line is not guarded — on a nonempty collection with no
cost-bearing session, `main`'s only guard passes, `displaySummary` runs,
and the average divides zero by a zero count, so no finite value (a JS
`NaN`) reaches the output. -/
theorem average_not_guarded :
    mainRunsDisplaySummary [zeroConv] = true ∧
    averageCostPerConversation [zeroConv] = none := by
  constructor
  · rfl
  · show jsDiv (totalCostOf (List.filter _ [zeroConv]))
      (List.filter _ [zeroConv]).length = none
    have hf : [zeroConv].filter (fun c => decide (0 < c.totalCost)) = [] := by
      simp [zeroConv, List.filter]
    rw [hf]
    simp [jsDiv, totalCostOf]

/-- An assistant record carrying both a direct `costUSD` of 100 and raw
usage (1,000,000 input tokens on Sonnet 3.5, worth 3.00). -/
def dualSourceRecord : Record :=
  ⟨some "assistant", none, none, none, none, some 100,
   some ⟨some megaInputUsage, some "claude-3-5-sonnet-20241022"⟩⟩

/-- An assistant record carrying raw usage but no `costUSD`. -/
def usageOnlyRecord : Record :=
  ⟨some "assistant", none, none, none, none, none,
   some ⟨some megaInputUsage, some "claude-3-5-sonnet-20241022"⟩⟩

/-- Counterexample to C6: the enhanced parser prices the usage (3.00) and
ignores the direct cost of 100 rather than using it "as-is"; and in the
basic parser a usage-only record does not count as a turn, though the
claim says either source suffices. -/
theorem cost_priority_counterexample :
    (parseJSONLFileEnhanced "c6" [Line.ok dualSourceRecord]).totalCost = 3 ∧
    ¬ (parseJSONLFileEnhanced "c6" [Line.ok dualSourceRecord]).totalCost = 100 ∧
    (parseJSONLFileBasic "c6b" [Line.ok usageOnlyRecord]).messageCount = 0 := by
  have h3 : (parseJSONLFileEnhanced "c6" [Line.ok dualSourceRecord]).totalCost = 3 := by
    show (List.foldl processLineEnhanced initState [Line.ok dualSourceRecord]).totalCost = 3
    rw [List.foldl_cons, List.foldl_nil]
    show (processRecordEnhanced initState dualSourceRecord).totalCost = 3
    rw [(processRecordEnhanced_count initState dualSourceRecord).2]
    have hb : isCostBearingRecord dualSourceRecord = true := rfl
    rw [if_pos hb]
    show (0 : ℚ) + recordCostEnhanced dualSourceRecord = 3
    have : recordCostEnhanced dualSourceRecord =
        calculateCost (some megaInputUsage) "claude-3-5-sonnet-20241022" := rfl
    rw [this, megaInput_sonnet_cost]
    norm_num
  refine ⟨h3, by rw [h3]; norm_num, ?_⟩
  decide

theorem applyAssistantBasic_count (st : ParseState) (r : Record) :
    (applyAssistantBasic st r).messageCount =
      st.messageCount +
        (if r.type = some "assistant" ∧ jsTruthyNum r.costUSD then 1 else 0) ∧
    (applyAssistantBasic st r).totalCost =
      st.totalCost +
        (if r.type = some "assistant" ∧ jsTruthyNum r.costUSD
         then r.costUSD.getD 0 else 0) := by
  unfold applyAssistantBasic
  refine ⟨?_, ?_⟩ <;> (repeat' split) <;> simp_all

theorem processRecordBasic_count (st : ParseState) (r : Record) :
    (processRecordBasic st r).messageCount =
      st.messageCount +
        (if r.type = some "assistant" ∧ jsTruthyNum r.costUSD then 1 else 0) ∧
    (processRecordBasic st r).totalCost =
      st.totalCost +
        (if r.type = some "assistant" ∧ jsTruthyNum r.costUSD
         then r.costUSD.getD 0 else 0) := by
  unfold processRecordBasic
  have hts := applyTimestamp_frame
    (applyAssistantBasic (applyUser (applySummary st r) r) r) r
  have hab := applyAssistantBasic_count (applyUser (applySummary st r) r) r
  have hau := applyUser_frame (applySummary st r) r
  have has := applySummary_frame st r
  constructor
  · rw [hts.2.1, hab.1, hau.2.1, has.2.1]
  · rw [hts.1, hab.2, hau.1, has.1]

/-- C6 amended: the two scripts each support exactly one cost source — the
enhanced loop body is unchanged by any direct `costUSD` value and, on a
cost-bearing record, adds the usage-priced cost and counts the turn; the
basic loop body is unchanged by the nested usage message and, on an
assistant record with truthy `costUSD`, adds that value as-is and counts
the turn. -/
theorem cost_sources_per_variant :
    (∀ (st : ParseState) (r : Record) (v : Option ℚ),
      processRecordEnhanced st { r with costUSD := v } =
        processRecordEnhanced st r) ∧
    (∀ (st : ParseState) (r : Record) (m : Option MessageBody),
      processRecordBasic st { r with message := m } =
        processRecordBasic st r) ∧
    (∀ (st : ParseState) (r : Record),
      r.type = some "assistant" → jsTruthyNum r.costUSD →
      (processRecordBasic st r).totalCost = st.totalCost + r.costUSD.getD 0 ∧
      (processRecordBasic st r).messageCount = st.messageCount + 1) ∧
    (∀ (st : ParseState) (r : Record),
      isCostBearingRecord r →
      (processRecordEnhanced st r).totalCost =
        st.totalCost + recordCostEnhanced r ∧
      (processRecordEnhanced st r).messageCount = st.messageCount + 1) := by
  refine ⟨fun st r v => rfl, fun st r m => rfl, ?_, ?_⟩
  · intro st r ht hc
    have h := processRecordBasic_count st r
    rw [if_pos ⟨ht, hc⟩] at h
    rw [if_pos ⟨ht, hc⟩] at h
    exact ⟨h.2, h.1⟩
  · intro st r hb
    have h := processRecordEnhanced_count st r
    rw [if_pos hb] at h
    rw [if_pos hb] at h
    exact ⟨h.2, h.1⟩

/-- An assistant record with a direct `costUSD` of 5 and no usage. -/
def basicCostRecord : Record :=
  ⟨some "assistant", none, none, none, none, some 5, none⟩

/-- Witness for the amended C6: concrete records exercising each part. -/
theorem cost_sources_per_variant_witness :
    processRecordEnhanced initState { dualSourceRecord with costUSD := none } =
      processRecordEnhanced initState dualSourceRecord ∧
    processRecordBasic initState { basicCostRecord with
      message := some ⟨some megaInputUsage, some "claude-3-5-sonnet-20241022"⟩ } =
      processRecordBasic initState basicCostRecord ∧
    (processRecordBasic initState basicCostRecord).totalCost =
      initState.totalCost + (basicCostRecord.costUSD).getD 0 ∧
    (processRecordEnhanced initState dualSourceRecord).totalCost =
      initState.totalCost + recordCostEnhanced dualSourceRecord :=
  ⟨cost_sources_per_variant.1 initState dualSourceRecord none,
   cost_sources_per_variant.2.1 initState basicCostRecord
     (some ⟨some megaInputUsage, some "claude-3-5-sonnet-20241022"⟩),
   (cost_sources_per_variant.2.2.1 initState basicCostRecord rfl (by decide)).1,
   (cost_sources_per_variant.2.2.2 initState dualSourceRecord (by decide)).1⟩

/-- What one record contributes to the title candidate: in a summary
record's metadata, `metadata.summary` wins over `metadata.thread_summary`,
both over nothing. -/
def recordTitleContribution (r : Record) : Option String :=
  if r.type = some "summary" then
    match r.metadata with
    | some m =>
      if jsTruthy m.summary then some (m.summary.getD "")
      else if jsTruthy m.thread_summary then some (m.thread_summary.getD "")
      else none
    | none => none
  else none

/-- What one record contributes to the free-text summary candidate. -/
def recordSummaryContribution (r : Record) : Option String :=
  if r.type = some "summary" ∧ jsTruthy r.summary then some (r.summary.getD "")
  else none

/-- What one record contributes as a first-user-message candidate. -/
def recordUserContribution (r : Record) : Option String :=
  if r.type = some "user" ∧ jsTruthy r.text then some ((r.text.getD "").take 100)
  else none

/-- Title contribution of a line (malformed lines contribute nothing). -/
def lineTitleContribution : Line → Option String
  | .malformed => none
  | .ok r => recordTitleContribution r

/-- Summary contribution of a line. -/
def lineSummaryContribution : Line → Option String
  | .malformed => none
  | .ok r => recordSummaryContribution r

/-- User-message contribution of a line. -/
def lineUserContribution : Line → Option String
  | .malformed => none
  | .ok r => recordUserContribution r

theorem applySummary_title (st : ParseState) (r : Record) :
    (applySummary st r).conversationTitle =
      (recordTitleContribution r).getD st.conversationTitle := by
  unfold applySummary recordTitleContribution
  repeat' split
  all_goals simp_all

theorem applySummary_summaryField (st : ParseState) (r : Record) :
    (applySummary st r).summary =
      (recordSummaryContribution r).getD st.summary := by
  unfold applySummary recordSummaryContribution
  repeat' split
  all_goals simp_all

theorem applyUser_firstUser (st : ParseState) (r : Record) :
    (applyUser st r).firstUserMessage =
      match recordUserContribution r with
      | some u =>
        if st.firstUserMessage = "" then u else st.firstUserMessage
      | none => st.firstUserMessage := by
  unfold applyUser recordUserContribution
  repeat' split
  all_goals simp_all
  all_goals tauto

theorem processRecordEnhanced_title (st : ParseState) (r : Record) :
    (processRecordEnhanced st r).conversationTitle =
      (recordTitleContribution r).getD st.conversationTitle := by
  unfold processRecordEnhanced
  rw [(applyTimestamp_frame _ r).2.2.2.1,
    (applyAssistantEnhanced_frame _ r).2.2.2.1,
    (applyUser_frame _ r).2.2.2.2.1, applySummary_title]

theorem processRecordEnhanced_summaryField (st : ParseState) (r : Record) :
    (processRecordEnhanced st r).summary =
      (recordSummaryContribution r).getD st.summary := by
  unfold processRecordEnhanced
  rw [(applyTimestamp_frame _ r).2.2.2.2.1,
    (applyAssistantEnhanced_frame _ r).2.2.2.2.1,
    (applyUser_frame _ r).2.2.2.2.2.1, applySummary_summaryField]

theorem processRecordEnhanced_firstUser (st : ParseState) (r : Record) :
    (processRecordEnhanced st r).firstUserMessage =
      match recordUserContribution r with
      | some u =>
        if st.firstUserMessage = "" then u else st.firstUserMessage
      | none => st.firstUserMessage := by
  unfold processRecordEnhanced
  rw [(applyTimestamp_frame _ r).2.2.1,
    (applyAssistantEnhanced_frame _ r).2.2.1, applyUser_firstUser,
    (applySummary_frame st r).2.2.2.2]

theorem getLast?_getD_cons (x : α) (xs : List α) (d : α) :
    ((x :: xs).getLast?).getD d = (xs.getLast?).getD x := by
  induction xs generalizing x d with
  | nil => rfl
  | cons y ys ih =>
    rw [List.getLast?_cons_cons]
    rw [ih y d, ih y x]

theorem foldl_enhanced_title (lines : List Line) (st : ParseState) :
    (lines.foldl processLineEnhanced st).conversationTitle =
      ((lines.filterMap lineTitleContribution).getLast?).getD
        st.conversationTitle := by
  induction lines generalizing st with
  | nil => rfl
  | cons l ls ih =>
    rw [List.foldl_cons, ih, List.filterMap_cons]
    cases l with
    | malformed => rfl
    | ok r =>
      show ((ls.filterMap lineTitleContribution).getLast?).getD
          (processRecordEnhanced st r).conversationTitle = _
      rw [processRecordEnhanced_title]
      cases hc : recordTitleContribution r with
      | none => simp [lineTitleContribution, hc]
      | some c =>
        simp only [lineTitleContribution, hc, Option.getD_some]
        rw [getLast?_getD_cons]

theorem foldl_enhanced_summaryField (lines : List Line) (st : ParseState) :
    (lines.foldl processLineEnhanced st).summary =
      ((lines.filterMap lineSummaryContribution).getLast?).getD st.summary := by
  induction lines generalizing st with
  | nil => rfl
  | cons l ls ih =>
    rw [List.foldl_cons, ih, List.filterMap_cons]
    cases l with
    | malformed => rfl
    | ok r =>
      show ((ls.filterMap lineSummaryContribution).getLast?).getD
          (processRecordEnhanced st r).summary = _
      rw [processRecordEnhanced_summaryField]
      cases hc : recordSummaryContribution r with
      | none => simp [lineSummaryContribution, hc]
      | some c =>
        simp only [lineSummaryContribution, hc, Option.getD_some]
        rw [getLast?_getD_cons]

theorem take100_ne_empty (s : String) (h : ¬ s = "") : ¬ s.take 100 = "" := by
  intro hc
  apply h
  have hdata : (s.take 100).data = [] := by rw [hc]
  rw [String.data_take] at hdata
  rcases List.take_eq_nil_iff.mp hdata with h' | h'
  · exact absurd h' (by norm_num)
  · exact String.ext h'

theorem userContribution_ne_empty (l : Line) (u : String)
    (h : lineUserContribution l = some u) : ¬ u = "" := by
  cases l with
  | malformed => simp [lineUserContribution] at h
  | ok r =>
    simp only [lineUserContribution, recordUserContribution] at h
    split at h
    · rename_i hcond
      have htext : jsTruthy r.text = true := hcond.2
      cases ht : r.text with
      | none => rw [ht] at htext; simp [jsTruthy] at htext
      | some s =>
        rw [ht] at htext h
        have hs : ¬ s = "" := by simpa [jsTruthy] using htext
        have : (s.take 100) = u := by simpa using h
        rw [← this]
        exact take100_ne_empty s hs
    · simp at h

theorem titleContribution_ne_empty (l : Line) (u : String)
    (h : lineTitleContribution l = some u) : ¬ u = "" := by
  cases l with
  | malformed => simp [lineTitleContribution] at h
  | ok r =>
    simp only [lineTitleContribution, recordTitleContribution] at h
    split at h
    · split at h
      · rename_i m hmeq
        split at h
        · rename_i hsum
          cases hm : m.summary with
          | none => rw [hm] at hsum; simp [jsTruthy] at hsum
          | some s =>
            rw [hm] at hsum h
            have hs : ¬ s = "" := by simpa [jsTruthy] using hsum
            have : s = u := by simpa using h
            rw [← this]
            exact hs
        · split at h
          · rename_i hth
            cases hm : m.thread_summary with
            | none => rw [hm] at hth; simp [jsTruthy] at hth
            | some s =>
              rw [hm] at hth h
              have hs : ¬ s = "" := by simpa [jsTruthy] using hth
              have : s = u := by simpa using h
              rw [← this]
              exact hs
          · simp at h
      · simp at h
    · simp at h

theorem summaryContribution_ne_empty (l : Line) (u : String)
    (h : lineSummaryContribution l = some u) : ¬ u = "" := by
  cases l with
  | malformed => simp [lineSummaryContribution] at h
  | ok r =>
    simp only [lineSummaryContribution, recordSummaryContribution] at h
    split at h
    · rename_i hcond
      have hsum : jsTruthy r.summary = true := hcond.2
      cases hm : r.summary with
      | none => rw [hm] at hsum; simp [jsTruthy] at hsum
      | some s =>
        rw [hm] at hsum h
        have hs : ¬ s = "" := by simpa [jsTruthy] using hsum
        have : s = u := by simpa using h
        rw [← this]
        exact hs
    · simp at h

theorem foldl_enhanced_firstUser (lines : List Line) (st : ParseState) :
    (lines.foldl processLineEnhanced st).firstUserMessage =
      if st.firstUserMessage = "" then
        ((lines.filterMap lineUserContribution).head?).getD ""
      else st.firstUserMessage := by
  induction lines generalizing st with
  | nil =>
    cases h : decide (st.firstUserMessage = "") with
    | true => simp_all
    | false => simp_all
  | cons l ls ih =>
    rw [List.foldl_cons, ih, List.filterMap_cons]
    have hfu : (processLineEnhanced st l).firstUserMessage =
        match lineUserContribution l with
        | some u => if st.firstUserMessage = "" then u else st.firstUserMessage
        | none => st.firstUserMessage := by
      cases l with
      | malformed => simp [processLineEnhanced, lineUserContribution]
      | ok r =>
        show (processRecordEnhanced st r).firstUserMessage = _
        rw [processRecordEnhanced_firstUser]
        rfl
    by_cases hst : st.firstUserMessage = ""
    · cases hc : lineUserContribution l with
      | none =>
        rw [hc] at hfu
        have hfu2 : (processLineEnhanced st l).firstUserMessage =
            st.firstUserMessage := hfu
        simp [hfu2, hst, hc]
      | some u =>
        rw [hc] at hfu
        have hfu2 : (processLineEnhanced st l).firstUserMessage =
            if st.firstUserMessage = "" then u else st.firstUserMessage := hfu
        simp [hfu2, hst, hc, userContribution_ne_empty l u hc]
    · cases hc : lineUserContribution l with
      | none =>
        rw [hc] at hfu
        have hfu2 : (processLineEnhanced st l).firstUserMessage =
            st.firstUserMessage := hfu
        simp [hfu2, hst, hc]
      | some u =>
        rw [hc] at hfu
        have hfu2 : (processLineEnhanced st l).firstUserMessage =
            if st.firstUserMessage = "" then u else st.firstUserMessage := hfu
        simp [hfu2, hst, hc]

theorem normalizeTitle_length (s : String) : (normalizeTitle s).length ≤ 100 := by
  unfold normalizeTitle
  rw [String.take_eq]
  show (List.take 100 _).length ≤ 100
  rw [List.length_take]
  omega

set_option maxRecDepth 4000 in
set_option maxHeartbeats 1000000 in
/-- C9: the final display title is resolved once after the pass with the
precedence metadata-title > free-text summary > first user message >
"Untitled conversation" (the user fallback is the first user record with
truthy text, captured truncated to 100 characters), and the chosen title
is newline-flattened and truncated to at most 100 characters. -/
theorem title_resolution (conversationId : String) (lines : List Line) :
    (parseJSONLFileEnhanced conversationId lines).conversationTitle =
      normalizeTitle
        (((lines.filterMap lineTitleContribution).getLast?).getD
          (((lines.filterMap lineSummaryContribution).getLast?).getD
            (((lines.filterMap lineUserContribution).head?).getD
              "Untitled conversation"))) ∧
    ((parseJSONLFileEnhanced conversationId lines).conversationTitle).length
      ≤ 100 := by
  have hT := foldl_enhanced_title lines initState
  have hS := foldl_enhanced_summaryField lines initState
  have hU := foldl_enhanced_firstUser lines initState
  have hparse : (parseJSONLFileEnhanced conversationId lines).conversationTitle =
      resolveTitle (lines.foldl processLineEnhanced initState) := by
    simp only [parseJSONLFileEnhanced]
  have hmain : (parseJSONLFileEnhanced conversationId lines).conversationTitle =
      normalizeTitle
        (((lines.filterMap lineTitleContribution).getLast?).getD
          (((lines.filterMap lineSummaryContribution).getLast?).getD
            (((lines.filterMap lineUserContribution).head?).getD
              "Untitled conversation"))) := by
    rw [hparse]
    show normalizeTitle _ = _
    apply congrArg normalizeTitle
    have hU2 : (lines.foldl processLineEnhanced initState).firstUserMessage =
        ((lines.filterMap lineUserContribution).head?).getD "" := by
      rw [hU]
      rfl
    cases hT' : (lines.filterMap lineTitleContribution).getLast? with
    | some t =>
      have hst : (lines.foldl processLineEnhanced initState).conversationTitle
          = t := by rw [hT, hT']; rfl
      have ht : ¬ t = "" := by
        obtain ⟨l, hl, hlc⟩ := List.mem_filterMap.mp
          (List.mem_of_getLast?_eq_some hT')
        exact titleContribution_ne_empty l t hlc
      rw [hst, if_neg ht]
      rfl
    | none =>
      have hst : (lines.foldl processLineEnhanced initState).conversationTitle
          = "" := by rw [hT, hT']; rfl
      rw [hst, if_pos rfl, Option.getD_none]
      cases hS' : (lines.filterMap lineSummaryContribution).getLast? with
      | some sm =>
        have hss : (lines.foldl processLineEnhanced initState).summary = sm := by
          rw [hS, hS']
          rfl
        have hs : ¬ sm = "" := by
          obtain ⟨l, hl, hlc⟩ := List.mem_filterMap.mp
            (List.mem_of_getLast?_eq_some hS')
          exact summaryContribution_ne_empty l sm hlc
        rw [hss, if_pos hs]
        rfl
      | none =>
        have hss : (lines.foldl processLineEnhanced initState).summary = "" := by
          rw [hS, hS']
          rfl
        rw [hss, if_neg (by simp), Option.getD_none]
        cases hU' : (lines.filterMap lineUserContribution).head? with
        | some u =>
          have huu : (lines.foldl processLineEnhanced initState).firstUserMessage
              = u := by rw [hU2, hU']; rfl
          have hu : ¬ u = "" := by
            have hmem : u ∈ lines.filterMap lineUserContribution :=
              List.mem_of_mem_head? (by rw [hU']; rfl)
            obtain ⟨l, hl, hlc⟩ := List.mem_filterMap.mp hmem
            exact userContribution_ne_empty l u hlc
          rw [huu, if_pos hu]
          rfl
        | none =>
          have huu : (lines.foldl processLineEnhanced initState).firstUserMessage
              = "" := by rw [hU2, hU']; rfl
          rw [huu, if_neg (by simp)]
          rfl
  refine ⟨hmain, ?_⟩
  rw [hmain]
  exact normalizeTitle_length _

/-- A log file exercising the full title precedence: a metadata summary, a
free-text summary and a user message are all present; the metadata title
wins. -/
def titledFile : List Line :=
  [ Line.ok ⟨some "summary", none, some "free text summary",
      some ⟨none, none, some "thread title", some "meta title"⟩,
      none, none, none⟩,
    Line.ok ⟨some "user", none, none, none, some "first user message",
      none, none⟩ ]

/-- Witness for C9: on the fixture file the resolved title is the metadata
summary, normalized. -/
theorem title_resolution_witness :
    (parseJSONLFileEnhanced "t" titledFile).conversationTitle =
      normalizeTitle
        (((titledFile.filterMap lineTitleContribution).getLast?).getD
          (((titledFile.filterMap lineSummaryContribution).getLast?).getD
            (((titledFile.filterMap lineUserContribution).head?).getD
              "Untitled conversation"))) ∧
    ((parseJSONLFileEnhanced "t" titledFile).conversationTitle).length ≤ 100 :=
  title_resolution "t" titledFile
